import Mathlib

/-!
Verification of the extraction-and-classification pipeline of
`fixed_mermaid_generator.py` (class `FixedMermaidGenerator`).

Python strings are modelled as `List Char`.  Each definition below is a
direct translation of the corresponding Python function; stdlib calls
(`re.sub`, `html.unescape`, `str.strip`, `str.lower`) are modelled by
explicit scanners with the same left-to-right, non-overlapping semantics.
-/

namespace DecisionTree

abbrev Str := List Char

/-- Whitespace set used by Python's `re` module `\s` class and `str.strip()`
(ASCII whitespace, file/group/record/unit separators, NEL, NBSP and the
Unicode space separators). -/
def isPySpace (c : Char) : Bool :=
  let n := c.toNat
  n == 32 || (decide (9 ≤ n) && decide (n ≤ 13)) ||
  (decide (28 ≤ n) && decide (n ≤ 31)) || n == 0x85 || n == 0xa0 ||
  n == 0x1680 || (decide (0x2000 ≤ n) && decide (n ≤ 0x200a)) ||
  n == 0x2028 || n == 0x2029 || n == 0x202f || n == 0x205f || n == 0x3000

/-- Scanner for `re.sub(r"\s+", " ", text)`: the flag records whether we are
inside a whitespace run that has already emitted its single space. -/
def collapseAux : Bool → Str → Str
  | _, [] => []
  | inWs, c :: cs =>
    if isPySpace c then
      if inWs then collapseAux true cs
      else ' ' :: collapseAux true cs
    else c :: collapseAux false cs

/-- Translation of `re.sub(r"\s+", " ", text)`. -/
def collapseWs (l : Str) : Str := collapseAux false l

/-- Removes trailing Python-whitespace characters (the right half of
`str.strip()`). -/
def dropTrailingWs : Str → Str
  | [] => []
  | c :: cs =>
    match dropTrailingWs cs with
    | [] => if isPySpace c then [] else [c]
    | m => c :: m

/-- Translation of `str.strip()` with no arguments. -/
def pyStrip (l : Str) : Str := dropTrailingWs (l.dropWhile isPySpace)

/-- Translation of `re.sub(r"\s+", " ", text).strip()` (line 24 of the
source). -/
def normWs (l : Str) : Str := pyStrip (collapseWs l)

/-- Translation of `re.sub(r"<(br|/p)>", "\n", html, flags=re.I)`
(line 19). -/
def subBr : Str → Str
  | [] => []
  | c :: a :: b :: d :: rest =>
    if c = '<' ∧ d = '>' ∧ ((a.toLower = 'b' ∧ b.toLower = 'r') ∨
                            (a = '/' ∧ b.toLower = 'p')) then
      '\n' :: subBr rest
    else c :: subBr (a :: b :: d :: rest)
  | c :: cs => c :: subBr cs

/-- Scanner for `re.sub(r"<[^>]+>", "", text)` (line 21): the first argument
buffers, in reverse, the characters read since an unmatched `<`.  If the tag
closes with at least one character inside, the whole tag is dropped; if the
input ends first (or the tag is empty), the buffered text is kept
literally, exactly as the regex leaves unmatched text in place. -/
def stripTagsAux : Option Str → Str → Str
  | none, [] => []
  | none, c :: cs =>
    if c = '<' then stripTagsAux (some []) cs else c :: stripTagsAux none cs
  | some acc, [] => '<' :: acc.reverse
  | some acc, c :: cs =>
    if c = '>' then
      match acc with
      | [] => '<' :: '>' :: stripTagsAux none cs
      | _ :: _ => stripTagsAux none cs
    else stripTagsAux (some (c :: acc)) cs

/-- Translation of `re.sub(r"<[^>]+>", "", text)`. -/
def stripTags (l : Str) : Str := stripTagsAux none l

/-- Apostrophe character (written via its code point to keep source easy to
scan). -/
def sq : Char := Char.ofNat 39

/-- Named HTML5 entity table used by `html.unescape`; restricted to the
core entities relevant to board text (the full stdlib table has thousands
of entries, all handled by the same lookup/longest-prefix algorithm
modelled here). -/
def html5Entities : List (Str × Str) :=
  [("amp;".data, "&".data), ("amp".data, "&".data),
   ("lt;".data, "<".data), ("lt".data, "<".data),
   ("gt;".data, ">".data), ("gt".data, ">".data),
   ("quot;".data, "\"".data), ("quot".data, "\"".data),
   ("apos;".data, [sq]),
   ("nbsp;".data, [Char.ofNat 0xa0]), ("nbsp".data, [Char.ofNat 0xa0])]

/-- The `_invalid_charrefs` table of CPython's `html` module (numeric
character references remapped per the HTML5 spec). -/
def invalidCharrefs : List (Nat × Nat) :=
  [(0x00, 0xfffd), (0x0d, 0x0d), (0x80, 0x20ac), (0x81, 0x81),
   (0x82, 0x201a), (0x83, 0x192), (0x84, 0x201e), (0x85, 0x2026),
   (0x86, 0x2020), (0x87, 0x2021), (0x88, 0x2c6), (0x89, 0x2030),
   (0x8a, 0x160), (0x8b, 0x2039), (0x8c, 0x152), (0x8d, 0x8d),
   (0x8e, 0x17d), (0x8f, 0x8f), (0x90, 0x90), (0x91, 0x2018),
   (0x92, 0x2019), (0x93, 0x201c), (0x94, 0x201d), (0x95, 0x2022),
   (0x96, 0x2013), (0x97, 0x2014), (0x98, 0x2dc), (0x99, 0x2122),
   (0x9a, 0x161), (0x9b, 0x203a), (0x9c, 0x153), (0x9d, 0x9d),
   (0x9e, 0x17e), (0x9f, 0x178)]

/-- The `_invalid_codepoints` set of CPython's `html` module. -/
def isInvalidCodepoint (n : Nat) : Bool :=
  (decide (1 ≤ n) && decide (n ≤ 8)) ||
  (decide (0xe ≤ n) && decide (n ≤ 0x1f)) ||
  (decide (0x7f ≤ n) && decide (n ≤ 0x9f)) ||
  (decide (0xfdd0 ≤ n) && decide (n ≤ 0xfdef)) ||
  n % 0x10000 == 0xfffe || n % 0x10000 == 0xffff

/-- Replacement for a numeric character reference, following
`html._replace_charref`. -/
def replaceNumeric (n : Nat) : Str :=
  match List.lookup n invalidCharrefs with
  | some m => [Char.ofNat m]
  | none =>
    if (0xd800 ≤ n ∧ n ≤ 0xdfff) ∨ 0x10ffff < n then [Char.ofNat 0xfffd]
    else if isInvalidCodepoint n then []
    else [Char.ofNat n]

/-- Longest-matching-name fallback of `html._replace_charref`: try prefixes
of the candidate name from length `x` down to length 2. -/
def entityFallbackFrom : Nat → Str → Str
  | 0, s => '&' :: s
  | 1, s => '&' :: s
  | x + 2, s =>
    match List.lookup (s.take (x + 2)) html5Entities with
    | some v => v ++ s.drop (x + 2)
    | none => entityFallbackFrom (x + 1) s

/-- Replacement for a named character reference, following
`html._replace_charref`. -/
def replaceNamed (s : Str) : Str :=
  match List.lookup s html5Entities with
  | some v => v
  | none => entityFallbackFrom (s.length - 1) s

def charrefNameChar (c : Char) : Bool :=
  !(c == '\t' || c == '\n' || c == '\x0c' || c == ' ' ||
    c == '<' || c == '&' || c == '#' || c == ';')

def isHexDigitChar (c : Char) : Bool :=
  c.isDigit || (decide ('a' ≤ c) && decide (c ≤ 'f')) ||
  (decide ('A' ≤ c) && decide (c ≤ 'F'))

def hexVal (c : Char) : Nat :=
  if c.isDigit then c.toNat - 48
  else if decide ('a' ≤ c) && decide (c ≤ 'f') then c.toNat - 87
  else c.toNat - 55

def decimalVal (l : Str) : Nat := l.foldl (fun acc c => acc * 10 + (c.toNat - 48)) 0

def hexValOf (l : Str) : Nat := l.foldl (fun acc c => acc * 16 + hexVal c) 0

/-- Parse the character-reference regex
`&(#[0-9]+;?|#[xX][0-9a-fA-F]+;?|[^\t\n\f <&#;]{1,32};?)` at the position
just after a `&`; returns the replacement text and the number of consumed
characters. -/
def parseCharref (cs : Str) : Option (Str × Nat) :=
  match cs with
  | '#' :: rest =>
    match rest with
    | x :: rest2 =>
      if x = 'x' ∨ x = 'X' then
        let ds := rest2.takeWhile isHexDigitChar
        if ds.length = 0 then none
        else
          let semi := (rest2.drop ds.length).head? = some ';'
          some (replaceNumeric (hexValOf ds),
                if semi then 3 + ds.length else 2 + ds.length)
      else
        let ds := rest.takeWhile Char.isDigit
        if ds.length = 0 then none
        else
          let semi := (rest.drop ds.length).head? = some ';'
          some (replaceNumeric (decimalVal ds),
                if semi then 2 + ds.length else 1 + ds.length)
    | [] => none
  | _ =>
    let run := (cs.takeWhile charrefNameChar).take 32
    if run.length = 0 then none
    else
      let semi := (cs.drop run.length).head? = some ';'
      if semi then some (replaceNamed (run ++ [';']), run.length + 1)
      else some (replaceNamed run, run.length)

/-- Fuel-indexed scanner for `re.sub` with the character-reference pattern;
every step consumes at least one character, so fuel `l.length` suffices. -/
def unescapeAux : Nat → Str → Str
  | 0, l => l
  | _ + 1, [] => []
  | fuel + 1, c :: cs =>
    if c = '&' then
      match parseCharref cs with
      | some (rep, n) => rep ++ unescapeAux fuel (cs.drop n)
      | none => c :: unescapeAux fuel cs
    else c :: unescapeAux fuel cs

/-- Translation of `html.unescape` (which returns its argument unchanged
when it contains no ampersand). -/
def pyUnescape (l : Str) : Str :=
  if l.contains '&' then unescapeAux l.length l else l

/-- Translation of `FixedMermaidGenerator._html_to_text` (lines 14-25). -/
def htmlToText (html : Str) : Str :=
  if html = [] then []
  else normWs (pyUnescape (stripTags (subBr html)))

/-- ASCII decimal digit `[0-9]`. -/
def isDigitCh (c : Char) : Bool :=
  decide (48 ≤ c.toNat) && decide (c.toNat ≤ 57)

/-- ASCII letter or underscore `[A-Za-z_]`. -/
def isAlphaUndCh (c : Char) : Bool :=
  (decide (65 ≤ c.toNat) && decide (c.toNat ≤ 90)) ||
  (decide (97 ≤ c.toNat) && decide (c.toNat ≤ 122)) || c.toNat == 95

/-- Character class `[0-9A-Za-z_]` of `sanitize_id`. -/
def isIdChar (c : Char) : Bool :=
  isDigitCh c || isAlphaUndCh c

/-- Test for `re.match(r"^[A-Za-z_]", raw_id)` (line 136). -/
def startsAlphaUnd : Str → Bool
  | [] => false
  | c :: _ => isAlphaUndCh c

/-- The base string of `sanitize_id` (lines 136-139): the raw identifier if
it already starts with a letter or underscore, otherwise prefixed with the
fixed letter `N`. -/
def baseOf (rawId : Str) : Str :=
  if startsAlphaUnd rawId then rawId else 'N' :: rawId

/-- Scanner for `re.sub(r"[^0-9A-Za-z_]+", "_", base)` (line 141); the flag
records whether we are inside a disallowed run that already emitted its
underscore. -/
def subDisallowedAux : Bool → Str → Str
  | _, [] => []
  | inRun, c :: cs =>
    if isIdChar c then c :: subDisallowedAux false cs
    else if inRun then subDisallowedAux true cs
    else '_' :: subDisallowedAux true cs

/-- Translation of `FixedMermaidGenerator.sanitize_id` (lines 134-142). -/
def sanitizeId (rawId : Str) : Str :=
  subDisallowedAux false (baseOf rawId)

theorem lengthDropWhileLe (p : Char → Bool) (l : Str) :
    (l.dropWhile p).length ≤ l.length := by
  induction l with
  | nil => simp [List.dropWhile]
  | cons c cs ih =>
    simp only [List.dropWhile]
    by_cases h : p c
    · simp only [h]
      exact Nat.le_succ_of_le ih
    · simp [h]

/-- Modelled from the spec wording of the sanitizer step (spec 4.2):
"Replace every run of one-or-more disallowed characters with a single
underscore" — a run-at-a-time recursion, to be compared with the
character-at-a-time scanner translated from the source. -/
def specRunSub : Str → Str
  | [] => []
  | c :: cs =>
    if isIdChar c then c :: specRunSub cs
    else '_' :: specRunSub (cs.dropWhile (fun d => !(isIdChar d)))
termination_by l => l.length
decreasing_by
  · simp
  · have h := lengthDropWhileLe (fun d => !(isIdChar d)) cs
    simp only [List.length_cons]
    omega

/-- A raw board item as consumed by `extract_nodes_and_connections`.
A missing `id` or `type` field is modelled as the empty string (the code
only tests them for truthiness / membership in a fixed list); `content`
defaults to the empty string and `shapeKind` to `"rectangle"`, matching
the `.get` defaults in the source. -/
structure RawItem where
  itemId : Str
  itemType : Str
  content : Str
  shapeKind : Str
deriving DecidableEq

/-- A raw connector record; missing endpoint identifiers are modelled as
the empty string. -/
structure RawConnector where
  startId : Str
  endId : Str
  captions : List Str
deriving DecidableEq

/-- The `node_info` dictionary built per item (lines 61-103). -/
structure NodeInfo where
  typ : Str
  mermaidShape : Str
  text : Str
deriving DecidableEq

/-- The hard-coded `conclusion_text_map` (lines 38-48). -/
def conclusionTextMap : List (Str × Str) :=
  [("3458764636475175262".data, "LREC Approval required".data),
   ("3458764635302888442".data, "Continue to Research".data),
   ("3458764636474796545".data, "Apply via DAP-R".data),
   ("3458764636474951140".data, "Contact PO HRA approval required".data),
   ("3458764636474951421".data, "Contact PO HRA approval required".data),
   ("3458764636474951443".data, "Seek Advice".data),
   ("3458764636475175178".data, "Seek Advice".data),
   ("3458764636475175411".data, "Ethics approval required".data)]

def lowerStr (l : Str) : Str := l.map Char.toLower

/-- Classification of one raw item (lines 56-103): returns the `node_info`
built for it, or `none` when the loop `continue`s (unsupported kind, or
title text). -/
def classifyItem (item : RawItem) : Option NodeInfo :=
  if item.itemType = "shape".data then
    let content := htmlToText item.content
    if item.shapeKind = "rhombus".data then
      some ⟨"question".data, "diamond".data, content⟩
    else if item.itemId = "3458764635301875090".data then
      some ⟨"start".data, "stadium".data, "Start".data⟩
    else if content ≠ [] then
      some ⟨"process".data, "rectangle".data, content⟩
    else
      some ⟨"conclusion".data, "stadium".data,
            (List.lookup item.itemId conclusionTextMap).getD ("Conclusion".data)⟩
  else if item.itemType = "sticky_note".data then
    let content := htmlToText item.content
    some ⟨"note".data, "rectangle".data,
          if content ≠ [] then content else "Note".data⟩
  else if item.itemType = "text".data then
    let content := htmlToText item.content
    if content ≠ [] ∧ ¬ (("decision tree".data).isPrefixOf (lowerStr content)) then
      some ⟨"text".data, "rectangle".data, content⟩
    else none
  else none

/-- The keep-test of line 106: a node is stored only if its text is
non-empty and differs from the literal `'shape'`, or its identifier is a
key of `conclusion_text_map`. -/
def keepNode (itemId : Str) (info : NodeInfo) : Bool :=
  (decide (info.text ≠ []) && decide (info.text ≠ "shape".data)) ||
  (List.lookup itemId conclusionTextMap).isSome

/-- Python dict assignment `nodes[item_id] = node_info`: overwrite in place
when the key exists, append otherwise. -/
def dictInsert (nodes : List (Str × NodeInfo)) (k : Str) (v : NodeInfo) :
    List (Str × NodeInfo) :=
  match nodes with
  | [] => [(k, v)]
  | (k', v') :: rest =>
    if k' = k then (k', v) :: rest else (k', v') :: dictInsert rest k v

/-- One iteration of the item loop (lines 51-107). -/
def extractStep (nodes : List (Str × NodeInfo)) (item : RawItem) :
    List (Str × NodeInfo) :=
  if item.itemId = [] then nodes
  else
    match classifyItem item with
    | none => nodes
    | some info =>
      if keepNode item.itemId info then dictInsert nodes item.itemId info
      else nodes

/-- The node set built by the item loop, in insertion order. -/
def extractNodes (items : List RawItem) : List (Str × NodeInfo) :=
  items.foldl extractStep []

/-- Join with `' / '` as in `' / '.join(caption_texts)` (line 128). -/
def joinSlash : List Str → Str
  | [] => []
  | [x] => x
  | x :: y :: rest => x ++ (" / ".data) ++ joinSlash (y :: rest)

/-- The edge label built from the connector captions (lines 120-128). -/
def connectorLabel (captions : List Str) : Str :=
  joinSlash (captions.filterMap (fun c =>
    let t := htmlToText c
    if t = [] then none else some t))

/-- The connector loop (lines 110-130): connectors missing an endpoint
identifier are skipped; all others are kept, labelled. -/
def extractConnections (connectors : List RawConnector) :
    List (Str × Str × Str) :=
  connectors.filterMap (fun c =>
    if c.startId = [] ∨ c.endId = [] then none
    else some (c.startId, c.endId, connectorLabel c.captions))

/-- Translation of `extract_nodes_and_connections` (lines 32-132). -/
def extractNAC (items : List RawItem) (connectors : List RawConnector) :
    List (Str × NodeInfo) × List (Str × Str × Str) :=
  (extractNodes items, extractConnections connectors)

/-- Substring test `needle in hay` on Python strings. -/
def containsSub (needle : Str) : Str → Bool
  | [] => needle.isPrefixOf []
  | c :: t => needle.isPrefixOf (c :: t) || containsSub needle t

/-- The set of edge-target identifiers (lines 165-167). -/
def targetIds (conns : List (Str × Str × Str)) : List Str :=
  conns.map (fun c => c.2.1)

/-- Nodes with no incoming connection, in insertion order
(lines 169-172). -/
def startCandidates (nodes : List (Str × NodeInfo))
    (conns : List (Str × Str × Str)) : List (Str × NodeInfo) :=
  nodes.filter (fun p => !((targetIds conns).contains p.1))

/-- The preference test of lines 176-177: type `'start'`, or `'start'`
contained (case-insensitively) in the node text. -/
def isStartCandidate (p : Str × NodeInfo) : Bool :=
  p.2.typ = "start".data || containsSub ("start".data) (lowerStr p.2.text)

/-- Translation of `find_start_node` (lines 162-185). -/
def findStartNode (nodes : List (Str × NodeInfo))
    (conns : List (Str × Str × Str)) : Option Str :=
  match (startCandidates nodes conns).find? isStartCandidate with
  | some p => some p.1
  | none =>
    match startCandidates nodes conns with
    | p :: _ => some p.1
    | [] =>
      match nodes with
      | p :: _ => some p.1
      | [] => none

/-- Replacement `l.replace(c, r)` for a single-character pattern. -/
def replaceChar (c : Char) (r : Str) : Str → Str
  | [] => []
  | d :: ds => (if d = c then r else [d]) ++ replaceChar c r ds

/-- The bracket class `[{}()\[\]]` removed from labels (lines 151, 235). -/
def bracketChars : Str := ['\x7b', '\x7d', '(', ')', '[', ']']

def removeBrackets (l : Str) : Str := l.filter (fun c => !(bracketChars.contains c))

/-- The cleaned node label before truncation (lines 149-151): quote and
newline replacement, angle-bracket escaping, strip, bracket removal. -/
def cleanNodeBase (t : Str) : Str :=
  removeBrackets (pyStrip
    (replaceChar '>' ("&gt;".data)
      (replaceChar '<' ("&lt;".data)
        (replaceChar '\n' [' ']
          (replaceChar '"' [sq] t)))))

/-- Node-label truncation (lines 152-153): 50-character maximum with a
three-character ellipsis marker. -/
def truncNode (s : Str) : Str :=
  if 50 < s.length then s.take 47 ++ "...".data else s

/-- The `safe_text` of `get_mermaid_shape` (lines 148-153). -/
def nodeSafeText (t : Str) : Str := truncNode (cleanNodeBase t)

/-- Translation of `get_mermaid_shape` (lines 144-160); returns the opening
and closing bracket strings, the label quoted inside the closer. -/
def getMermaidShape (info : NodeInfo) (t : Str) : Str × Str :=
  let s := nodeSafeText t
  if info.mermaidShape = "diamond".data then
    ("\x7b".data, ("\"".data) ++ s ++ ("\"\x7d".data))
  else if info.mermaidShape = "stadium".data then
    ("([".data, ("\"".data) ++ s ++ ("\"])".data))
  else
    ("[".data, ("\"".data) ++ s ++ ("\"]".data))

/-- The cleaned edge label before truncation (lines 234-235). -/
def cleanEdgeBase (l : Str) : Str :=
  removeBrackets (pyStrip
    (replaceChar '>' []
      (replaceChar '<' []
        (replaceChar '"' [sq] l))))

/-- Edge-label truncation (lines 236-237): 30-character maximum with a
three-character ellipsis marker. -/
def truncEdge (s : Str) : Str :=
  if 30 < s.length then s.take 27 ++ "...".data else s

def nodeKeys (nodes : List (Str × NodeInfo)) : List Str := nodes.map Prod.fst

/-- The connections that survive the defensive endpoint check of
lines 226-227 and are rendered as edges. -/
def keptConnections (nodes : List (Str × NodeInfo))
    (conns : List (Str × Str × Str)) : List (Str × Str × Str) :=
  conns.filter (fun c =>
    (nodeKeys nodes).contains c.1 && (nodeKeys nodes).contains c.2.1)

/-- One rendered node declaration line (lines 207-210, 217-219). -/
def renderNodeLine (idMap : List (Str × Str)) (p : Str × NodeInfo) : Str :=
  let mid := (List.lookup p.1 idMap).getD []
  let sh := getMermaidShape p.2 p.2.text
  ("    ".data) ++ mid ++ sh.1 ++ sh.2

/-- One rendered edge line (lines 229-240). -/
def renderEdgeLine (idMap : List (Str × Str)) (c : Str × Str × Str) : Str :=
  let s := (List.lookup c.1 idMap).getD []
  let e := (List.lookup c.2.1 idMap).getD []
  if c.2.2 ≠ [] then
    ("    ".data) ++ s ++ (" -->|\"".data) ++ truncEdge (cleanEdgeBase c.2.2) ++
      ("\"| ".data) ++ e
  else
    ("    ".data) ++ s ++ (" --> ".data) ++ e

/-- The in-memory board data (`items` and `connectors` collections). -/
structure MiroData where
  items : List RawItem
  connectors : List RawConnector

/-- Translation of the pure content-building part of `generate_mermaid`
(lines 187-243): `none` models the early `return` of lines 192-194, in
which no diagram document is produced at all; otherwise the list of
emitted lines. -/
def generateMermaidLines (data : MiroData) : Option (List Str) :=
  let nodes := extractNodes data.items
  let conns := extractConnections data.connectors
  if nodes = [] then none
  else
    let idMap := nodes.map (fun p => (p.1, sanitizeId p.1))
    let startId := findStartNode nodes conns
    let startLines :=
      match startId with
      | some sid =>
        if sid ≠ [] then
          match List.lookup sid nodes with
          | some info => [renderNodeLine idMap (sid, info)]
          | none => []
        else []
      | none => []
    let otherLines :=
      (nodes.filter (fun p => !(some p.1 == startId))).map (renderNodeLine idMap)
    let edgeLines := (keptConnections nodes conns).map (renderEdgeLine idMap)
    some ((("flowchart TD".data) :: startLines ++ otherLines ++ [[]]) ++ edgeLines)

/-! Helper predicates and unfolding equations for the normalizer proofs. -/

/-- Every whitespace character of the list is a plain blank. -/
def allBlankWs (l : Str) : Bool := l.all (fun c => !(isPySpace c) || c == ' ')

/-- No two adjacent characters are both whitespace. -/
def noAdjWs : Str → Bool
  | [] => true
  | [_] => true
  | a :: b :: rest => (!(isPySpace a && isPySpace b)) && noAdjWs (b :: rest)

theorem collapseAuxCons (b : Bool) (c : Char) (cs : Str) :
    collapseAux b (c :: cs) =
      if isPySpace c then
        (if b then collapseAux true cs else ' ' :: collapseAux true cs)
      else c :: collapseAux false cs := rfl

theorem dropTrailingWsCons (c : Char) (cs : Str) :
    dropTrailingWs (c :: cs) =
      match dropTrailingWs cs with
      | [] => if isPySpace c then [] else [c]
      | m => c :: m := rfl

theorem noAdjWsConsCons (a b : Char) (t : Str) :
    noAdjWs (a :: b :: t) = ((!(isPySpace a && isPySpace b)) && noAdjWs (b :: t)) := rfl

theorem containsFalseOfNotMem {α : Type} [BEq α] [LawfulBEq α] {l : List α}
    {a : α} (h : a ∉ l) : l.contains a = false := by
  cases hc : l.contains a with
  | false => rfl
  | true => exact absurd (List.elem_iff.mp hc) h

theorem allBlankWsTail {c : Char} {cs : Str} (h : allBlankWs (c :: cs) = true) :
    allBlankWs cs = true := by
  have h' : ((!(isPySpace c) || c == ' ') &&
      cs.all (fun x => !(isPySpace x) || x == ' ')) = true := by
    rw [allBlankWs, List.all_cons] at h
    exact h
  exact (Bool.and_eq_true_iff.mp h').2

theorem allBlankWsHead {c : Char} {cs : Str} (h : allBlankWs (c :: cs) = true)
    (hc : isPySpace c = true) : c = ' ' := by
  have h' : ((!(isPySpace c) || c == ' ') &&
      cs.all (fun x => !(isPySpace x) || x == ' ')) = true := by
    rw [allBlankWs, List.all_cons] at h
    exact h
  rcases Bool.or_eq_true_iff.mp (Bool.and_eq_true_iff.mp h').1 with hx | hx
  · rw [hc] at hx
    cases hx
  · exact eq_of_beq hx

theorem allBlankWsConsOf {c : Char} {cs : Str} (h : allBlankWs cs = true)
    (hc : (!(isPySpace c) || c == ' ') = true) : allBlankWs (c :: cs) = true := by
  rw [allBlankWs, List.all_cons]
  rw [allBlankWs] at h
  rw [h, hc]
  rfl

theorem noAdjWsTail {c : Char} {cs : Str} (h : noAdjWs (c :: cs) = true) :
    noAdjWs cs = true := by
  cases cs with
  | nil => rfl
  | cons e t =>
    rw [noAdjWsConsCons] at h
    exact (Bool.and_eq_true_iff.mp h).2

theorem noAdjWsPair {c e : Char} {t : Str} (h : noAdjWs (c :: e :: t) = true) :
    isPySpace c = false ∨ isPySpace e = false := by
  rw [noAdjWsConsCons] at h
  have h1 := (Bool.and_eq_true_iff.mp h).1
  rcases hc : isPySpace c with _ | _
  · exact Or.inl rfl
  · rcases he : isPySpace e with _ | _
    · exact Or.inr rfl
    · rw [hc, he] at h1
      cases h1

theorem noAdjWsConsOf {c : Char} {m : Str} (hm : noAdjWs m = true)
    (hh : ∀ d, m.head? = some d → isPySpace c = false ∨ isPySpace d = false) :
    noAdjWs (c :: m) = true := by
  cases m with
  | nil => rfl
  | cons e t =>
    rw [noAdjWsConsCons, hm]
    rcases hh e rfl with h | h <;> simp [h]

theorem collapseAuxAllBlank (l : Str) : ∀ b, allBlankWs (collapseAux b l) = true := by
  induction l with
  | nil => intro b; rfl
  | cons c cs ih =>
    intro b
    rw [collapseAuxCons]
    by_cases hc : isPySpace c = true
    · rw [if_pos hc]
      cases b with
      | true => exact ih true
      | false =>
        rw [if_neg (by simp)]
        exact allBlankWsConsOf (ih true) (by rw [Bool.or_eq_true_iff]; right; rfl)
    · rw [if_neg hc]
      exact allBlankWsConsOf (ih false)
        (by rw [Bool.or_eq_true_iff]; left; simp [Bool.not_eq_true] at hc; rw [hc]; rfl)

theorem collapseAuxTrueHead (l : Str) :
    ∀ c, (collapseAux true l).head? = some c → isPySpace c = false := by
  induction l with
  | nil => intro c h; cases h
  | cons d ds ih =>
    intro c h
    rw [collapseAuxCons] at h
    by_cases hd : isPySpace d = true
    · rw [if_pos hd, if_pos rfl] at h
      exact ih c h
    · rw [if_neg hd, List.head?_cons] at h
      cases h
      simp [Bool.not_eq_true] at hd
      exact hd

theorem collapseAuxNoAdj (l : Str) : ∀ b, noAdjWs (collapseAux b l) = true := by
  induction l with
  | nil => intro b; rfl
  | cons c cs ih =>
    intro b
    rw [collapseAuxCons]
    by_cases hc : isPySpace c = true
    · rw [if_pos hc]
      cases b with
      | true => exact ih true
      | false =>
        rw [if_neg (by simp)]
        exact noAdjWsConsOf (ih true)
          (fun d hd => Or.inr (collapseAuxTrueHead cs d hd))
    · rw [if_neg hc]
      simp [Bool.not_eq_true] at hc
      exact noAdjWsConsOf (ih false) (fun d _ => Or.inl hc)

theorem collapseAuxId (l : Str) :
    ∀ b, noAdjWs l = true → allBlankWs l = true →
      (b = true → ∀ d, l.head? = some d → isPySpace d = false) →
      collapseAux b l = l := by
  induction l with
  | nil => intro b _ _ _; rfl
  | cons c cs ih =>
    intro b hadj hbl hb
    rw [collapseAuxCons]
    by_cases hc : isPySpace c = true
    · cases b with
      | true =>
        rw [hb rfl c rfl] at hc
        cases hc
      | false =>
        rw [if_pos hc, if_neg (by simp)]
        have hsp : c = ' ' := allBlankWsHead hbl hc
        have htl : collapseAux true cs = cs := by
          refine ih true (noAdjWsTail hadj) (allBlankWsTail hbl) ?_
          intro _ d hd
          cases cs with
          | nil => cases hd
          | cons e t =>
            rw [List.head?_cons] at hd
            cases hd
            rcases noAdjWsPair hadj with h | h
            · rw [hc] at h
              cases h
            · exact h
        rw [htl, hsp]
    · rw [if_neg hc]
      rw [ih false (noAdjWsTail hadj) (allBlankWsTail hbl) (by intro h; cases h)]

theorem dropTrailingWsIsPrefix (l : Str) : dropTrailingWs l <+: l := by
  induction l with
  | nil => exact List.prefix_refl []
  | cons c cs ih =>
    rw [dropTrailingWsCons]
    cases hm : dropTrailingWs cs with
    | nil =>
      by_cases hc : isPySpace c = true
      · rw [if_pos hc]
        exact List.nil_prefix
      · rw [if_neg hc]
        exact ⟨cs, rfl⟩
    | cons e t =>
      rw [hm] at ih
      exact (List.cons_prefix_cons).mpr ⟨rfl, ih⟩

theorem dropTrailingWsHead (l : Str) :
    (dropTrailingWs l).head? = none ∨ (dropTrailingWs l).head? = l.head? := by
  induction l with
  | nil => exact Or.inl rfl
  | cons c cs _ =>
    rw [dropTrailingWsCons]
    cases hm : dropTrailingWs cs with
    | nil =>
      by_cases hc : isPySpace c = true
      · rw [if_pos hc]
        exact Or.inl rfl
      · rw [if_neg hc]
        exact Or.inr rfl
    | cons e t => exact Or.inr rfl

theorem dropTrailingWsLast (l : Str) :
    ∀ d, (dropTrailingWs l).getLast? = some d → isPySpace d = false := by
  induction l with
  | nil => intro d h; cases h
  | cons c cs ih =>
    intro d h
    rw [dropTrailingWsCons] at h
    cases hm : dropTrailingWs cs with
    | nil =>
      rw [hm] at h
      by_cases hc : isPySpace c = true
      · rw [if_pos hc] at h
        cases h
      · rw [if_neg hc] at h
        simp only [List.getLast?_singleton, Option.some.injEq] at h
        cases h
        simp [Bool.not_eq_true] at hc
        exact hc
    | cons e t =>
      rw [hm, List.getLast?_cons_cons] at h
      exact ih d (by rw [hm]; exact h)

theorem dropTrailingWsId (l : Str)
    (h : ∀ d, l.getLast? = some d → isPySpace d = false) : dropTrailingWs l = l := by
  induction l with
  | nil => rfl
  | cons c cs ih =>
    rw [dropTrailingWsCons]
    cases cs with
    | nil =>
      have hc := h c (by rfl)
      rw [dropTrailingWs]
      rw [if_neg (by rw [hc]; intro hx; cases hx)]
    | cons e t =>
      have htl : dropTrailingWs (e :: t) = e :: t :=
        ih (fun d hd => h d (by rw [List.getLast?_cons_cons]; exact hd))
      rw [htl]

theorem noAdjWsOfPrefix : ∀ (m l : Str), m <+: l → noAdjWs l = true →
    noAdjWs m = true := by
  intro m
  induction m with
  | nil => intro l _ _; rfl
  | cons x m' ih =>
    intro l hp hl
    cases m' with
    | nil => rfl
    | cons y m'' =>
      obtain ⟨t, ht⟩ := hp
      subst ht
      simp only [List.cons_append] at hl
      have hpair := noAdjWsPair hl
      have htail : noAdjWs (y :: m'') = true :=
        ih (y :: (m'' ++ t)) ⟨t, by simp⟩ (noAdjWsTail hl)
      rw [noAdjWsConsCons, htail]
      rcases hpair with h | h <;> simp [h]

theorem allBlankWsOfPrefix {m l : Str} (hp : m <+: l)
    (hl : allBlankWs l = true) : allBlankWs m = true := by
  obtain ⟨t, ht⟩ := hp
  subst ht
  rw [allBlankWs, List.all_append, Bool.and_eq_true_iff] at hl
  exact hl.1

theorem noAdjWsDropWhile (l : Str) (h : noAdjWs l = true) :
    noAdjWs (l.dropWhile isPySpace) = true := by
  induction l with
  | nil => rfl
  | cons c cs ih =>
    by_cases hc : isPySpace c = true
    · rw [List.dropWhile_cons_of_pos hc]
      exact ih (noAdjWsTail h)
    · rw [List.dropWhile_cons_of_neg hc]
      exact h

theorem allBlankWsDropWhile (l : Str) (h : allBlankWs l = true) :
    allBlankWs (l.dropWhile isPySpace) = true := by
  induction l with
  | nil => rfl
  | cons c cs ih =>
    by_cases hc : isPySpace c = true
    · rw [List.dropWhile_cons_of_pos hc]
      exact ih (allBlankWsTail h)
    · rw [List.dropWhile_cons_of_neg hc]
      exact h

theorem dropWhileHeadWs (l : Str) :
    ∀ c, (l.dropWhile isPySpace).head? = some c → isPySpace c = false := by
  induction l with
  | nil => intro c h; cases h
  | cons d ds ih =>
    intro c h
    by_cases hd : isPySpace d = true
    · rw [List.dropWhile_cons_of_pos hd] at h
      exact ih c h
    · rw [List.dropWhile_cons_of_neg hd, List.head?_cons] at h
      cases h
      simp [Bool.not_eq_true] at hd
      exact hd

theorem pyStripNoAdj {l : Str} (h : noAdjWs l = true) :
    noAdjWs (pyStrip l) = true :=
  noAdjWsOfPrefix _ _ (dropTrailingWsIsPrefix _) (noAdjWsDropWhile l h)

theorem pyStripAllBlank {l : Str} (h : allBlankWs l = true) :
    allBlankWs (pyStrip l) = true :=
  allBlankWsOfPrefix (dropTrailingWsIsPrefix _) (allBlankWsDropWhile l h)

theorem pyStripHead (l : Str) :
    ∀ c, (pyStrip l).head? = some c → isPySpace c = false := by
  intro c h
  rw [pyStrip] at h
  rcases dropTrailingWsHead (l.dropWhile isPySpace) with h0 | h0
  · rw [h0] at h
    cases h
  · rw [h0] at h
    exact dropWhileHeadWs l c h

theorem pyStripLast (l : Str) :
    ∀ d, (pyStrip l).getLast? = some d → isPySpace d = false :=
  fun d h => dropTrailingWsLast _ d h

theorem pyStripId (l : Str)
    (hh : ∀ c, l.head? = some c → isPySpace c = false)
    (hl : ∀ d, l.getLast? = some d → isPySpace d = false) : pyStrip l = l := by
  have h1 : l.dropWhile isPySpace = l := by
    cases l with
    | nil => rfl
    | cons c cs =>
      refine List.dropWhile_cons_of_neg ?_
      rw [hh c rfl]
      intro hx
      cases hx
  rw [pyStrip, h1]
  exact dropTrailingWsId l hl

theorem normWsIdem (l : Str) : normWs (normWs l) = normWs l := by
  have hadj : noAdjWs (normWs l) = true :=
    pyStripNoAdj (collapseAuxNoAdj l false)
  have hbl : allBlankWs (normWs l) = true :=
    pyStripAllBlank (collapseAuxAllBlank l false)
  have hcol : collapseAux false (normWs l) = normWs l :=
    collapseAuxId (normWs l) false hadj hbl (by intro h; cases h)
  show pyStrip (collapseWs (normWs l)) = normWs l
  rw [collapseWs, hcol]
  exact pyStripId (normWs l) (pyStripHead _) (pyStripLast _)

theorem subBrConsDefault (c : Char) (cs : Str)
    (hshape : ∀ (a b d : Char) (rest : Str), cs = a :: b :: d :: rest → False) :
    subBr (c :: cs) = c :: subBr cs := by
  rcases cs with _ | ⟨x, _ | ⟨y, _ | ⟨z, t⟩⟩⟩
  · rfl
  · rfl
  · rfl
  · exact absurd rfl (hshape x y z t)

theorem subBrCons4 (c a b d : Char) (rest : Str) :
    subBr (c :: a :: b :: d :: rest) =
      if c = '<' ∧ d = '>' ∧ ((a.toLower = 'b' ∧ b.toLower = 'r') ∨
                              (a = '/' ∧ b.toLower = 'p')) then
        '\n' :: subBr rest
      else c :: subBr (a :: b :: d :: rest) := rfl

theorem subBrOfNoLt {l : Str} (h : '<' ∉ l) : subBr l = l := by
  induction l using subBr.induct with
  | case1 => rfl
  | case2 c a b d rest hcond _ =>
    obtain ⟨h1, _⟩ := hcond
    subst h1
    exact absurd (List.mem_cons_self _ _) h
  | case3 c a b d rest hcond ih =>
    rw [subBrCons4, if_neg hcond, ih (fun hm => h (List.mem_cons_of_mem c hm))]
  | case4 c cs hshape ih =>
    rw [subBrConsDefault c cs hshape,
        ih (fun hm => h (List.mem_cons_of_mem c hm))]

theorem stripTagsAuxNoneCons (c : Char) (cs : Str) :
    stripTagsAux none (c :: cs) =
      if c = '<' then stripTagsAux (some []) cs
      else c :: stripTagsAux none cs := rfl

theorem stripTagsOfNoLt {l : Str} (h : '<' ∉ l) : stripTags l = l := by
  rw [stripTags]
  induction l with
  | nil => rfl
  | cons c cs ih =>
    have hc : ¬ c = '<' := fun hc => h (by rw [hc]; exact List.mem_cons_self _ _)
    rw [stripTagsAuxNoneCons, if_neg hc,
        ih (fun hm => h (List.mem_cons_of_mem c hm))]

theorem pyUnescapeOfNoAmp {l : Str} (h : '&' ∉ l) : pyUnescape l = l := by
  rw [pyUnescape, containsFalseOfNotMem h]
  rfl

/-- C4, counterexample: `_html_to_text` is not idempotent.  Entity decoding
runs after tag stripping, so `"&lt;x&gt;"` normalizes to `"<x>"`, and a
second normalization strips `<x>` as a tag, yielding the empty string. -/
theorem htmlToTextNotIdempotent :
    htmlToText (htmlToText ("&lt;x&gt;".data)) ≠ htmlToText ("&lt;x&gt;".data) ∧
    htmlToText ("&lt;x&gt;".data) = "<x>".data ∧
    htmlToText (htmlToText ("&lt;x&gt;".data)) = [] := by
  refine ⟨?_, by decide, by decide⟩
  decide

/-- C4, amended: the text normalizer is idempotent on every input whose
normalized form contains neither `<` nor `&` (entity decoding can
re-introduce those two characters, which a second pass then treats as
markup; on outputs free of them the second pass changes nothing). -/
theorem htmlToTextIdempotentOnClean (s : Str)
    (h1 : '<' ∉ htmlToText s) (h2 : '&' ∉ htmlToText s) :
    htmlToText (htmlToText s) = htmlToText s := by
  by_cases hs : s = []
  · rw [hs]
    rfl
  · have hdef : htmlToText s = normWs (pyUnescape (stripTags (subBr s))) := by
      rw [htmlToText, if_neg hs]
    by_cases ht : htmlToText s = []
    · rw [ht]
      rfl
    · rw [htmlToText, if_neg ht, subBrOfNoLt h1, stripTagsOfNoLt h1,
          pyUnescapeOfNoAmp h2, hdef, normWsIdem]

/-- Witness for C4-amended at a concrete dirty input whose normal form is
clean. -/
theorem htmlToTextIdempotentOnCleanWitness :
    ('<' ∉ htmlToText ("  Hello   <b>world</b>  ".data)) ∧
    ('&' ∉ htmlToText ("  Hello   <b>world</b>  ".data)) ∧
    htmlToText (htmlToText ("  Hello   <b>world</b>  ".data)) =
      htmlToText ("  Hello   <b>world</b>  ".data) :=
  ⟨by decide, by decide,
   htmlToTextIdempotentOnClean ("  Hello   <b>world</b>  ".data)
     (by decide) (by decide)⟩

/-! Sanitizer lemmas (claims C5 and C8). -/

theorem subDisallowedAuxCons (b : Bool) (c : Char) (cs : Str) :
    subDisallowedAux b (c :: cs) =
      if isIdChar c then c :: subDisallowedAux false cs
      else if b then subDisallowedAux true cs
      else '_' :: subDisallowedAux true cs := rfl

theorem specRunSubNil : specRunSub [] = [] := by
  rw [specRunSub]

theorem specRunSubCons (c : Char) (cs : Str) :
    specRunSub (c :: cs) =
      if isIdChar c then c :: specRunSub cs
      else '_' :: specRunSub (cs.dropWhile (fun d => !(isIdChar d))) := by
  rw [specRunSub]

theorem subDisallowedEqSpecAux : ∀ (n : Nat) (l : Str), l.length ≤ n →
    subDisallowedAux false l = specRunSub l ∧
    subDisallowedAux true l = specRunSub (l.dropWhile (fun d => !(isIdChar d))) := by
  intro n
  induction n with
  | zero =>
    intro l hl
    have hnil : l = [] := List.length_eq_zero.mp (Nat.le_zero.mp hl)
    subst hnil
    exact ⟨specRunSubNil.symm, specRunSubNil.symm⟩
  | succ n ih =>
    intro l hl
    cases l with
    | nil => exact ⟨specRunSubNil.symm, specRunSubNil.symm⟩
    | cons c cs =>
      have hcs : cs.length ≤ n := by
        rw [List.length_cons] at hl
        omega
      constructor
      · rw [subDisallowedAuxCons, specRunSubCons]
        by_cases hid : isIdChar c = true
        · rw [if_pos hid, if_pos hid, (ih cs hcs).1]
        · rw [if_neg hid, if_neg hid, if_neg (by intro h; cases h), (ih cs hcs).2]
      · rw [subDisallowedAuxCons]
        by_cases hid : isIdChar c = true
        · rw [if_pos hid,
              List.dropWhile_cons_of_neg (by rw [hid]; intro h; cases h),
              specRunSubCons, if_pos hid, (ih cs hcs).1]
        · rw [if_neg hid, if_pos rfl,
              @List.dropWhile_cons_of_pos _ (fun d => !isIdChar d) c cs
                (by
                  show (!isIdChar c) = true
                  cases hx : isIdChar c with
                  | true => exact absurd hx hid
                  | false => rfl),
              (ih cs hcs).2]

theorem subDisallowedEqSpec (l : Str) : subDisallowedAux false l = specRunSub l :=
  (subDisallowedEqSpecAux l.length l (Nat.le_refl _)).1

theorem subDisallowedAuxAllOut : ∀ (l : Str) (b : Bool),
    (subDisallowedAux b l).all isIdChar = true := by
  intro l
  induction l with
  | nil => intro b; rfl
  | cons c cs ih =>
    intro b
    rw [subDisallowedAuxCons]
    by_cases hid : isIdChar c = true
    · rw [if_pos hid, List.all_cons, hid, ih false]
      rfl
    · rw [if_neg hid]
      cases b with
      | true =>
        rw [if_pos rfl]
        exact ih true
      | false =>
        rw [if_neg (by intro h; cases h), List.all_cons, ih true]
        rfl

theorem subDisallowedAuxAllId {l : Str} (h : l.all isIdChar = true) :
    subDisallowedAux false l = l := by
  induction l with
  | nil => rfl
  | cons c cs ih =>
    rw [List.all_cons, Bool.and_eq_true_iff] at h
    rw [subDisallowedAuxCons, if_pos h.1, ih h.2]

theorem digitNotAlphaUnd {c : Char} (h : isDigitCh c = true) :
    isAlphaUndCh c = false := by
  rw [isDigitCh, Bool.and_eq_true_iff, decide_eq_true_iff, decide_eq_true_iff] at h
  rw [isAlphaUndCh]
  rw [Bool.or_eq_false_iff, Bool.or_eq_false_iff]
  refine ⟨⟨?_, ?_⟩, ?_⟩
  · rw [Bool.and_eq_false_iff]
    left
    rw [decide_eq_false_iff_not]
    omega
  · rw [Bool.and_eq_false_iff]
    left
    rw [decide_eq_false_iff_not]
    omega
  · rw [beq_eq_false_iff_ne]
    omega

theorem sanitizeIdOfDigits {s : Str} (h : s.all isDigitCh = true) :
    sanitizeId s = 'N' :: s := by
  have hs : startsAlphaUnd s = false := by
    cases s with
    | nil => rfl
    | cons c cs =>
      rw [List.all_cons, Bool.and_eq_true_iff] at h
      show isAlphaUndCh c = false
      exact digitNotAlphaUnd h.1
  have hb : baseOf s = 'N' :: s := by
    rw [baseOf, if_neg (by rw [hs]; intro hx; cases hx)]
  rw [sanitizeId, hb, subDisallowedAuxCons, if_pos (by decide)]
  rw [subDisallowedAuxAllId]
  refine List.all_eq_true.mpr ?_
  intro x hx
  have := List.all_eq_true.mp h x hx
  rw [isIdChar, this]
  rfl

/-- C5, counterexample: the identifier sanitizer is not injective; the
distinct raw identifiers `a_b` and `a-b` collide. -/
theorem sanitizeIdNotInjective :
    sanitizeId ("a_b".data) = sanitizeId ("a-b".data) ∧
    ("a_b".data : Str) ≠ "a-b".data := by
  refine ⟨by decide, ?_⟩
  decide

/-- C5, amended: the sanitizer (a pure function, hence deterministic) is
injective on identifiers of the shape the board actually presents —
strings of decimal digits — where it reduces to prefixing the fixed
letter `N`. -/
theorem sanitizeIdInjectiveOnDigits (s1 s2 : Str)
    (h1 : s1.all isDigitCh = true) (h2 : s2.all isDigitCh = true)
    (h : sanitizeId s1 = sanitizeId s2) : s1 = s2 := by
  rw [sanitizeIdOfDigits h1, sanitizeIdOfDigits h2] at h
  injection h

/-- Witness for C5-amended on a concrete all-digit identifier. -/
theorem sanitizeIdInjectiveOnDigitsWitness :
    (("3458764636475175262".data).all isDigitCh = true) ∧
    ("3458764636475175262".data : Str) = "3458764636475175262".data :=
  ⟨by decide,
   sanitizeIdInjectiveOnDigits _ _ (by decide) (by decide) rfl⟩

/-- C8: every sanitized identifier is non-empty, starts with a letter or
underscore, contains only letters, digits and underscores; it arises from
the base string by replacing each maximal run of disallowed characters
with a single underscore (`specRunSub` is written from the spec wording),
and the base string of an input not starting with a letter or underscore
is that input prefixed with the fixed letter `N`. -/
theorem sanitizeIdFormat (s : Str) :
    sanitizeId s ≠ [] ∧
    (∀ c, (sanitizeId s).head? = some c → isAlphaUndCh c = true) ∧
    (sanitizeId s).all isIdChar = true ∧
    sanitizeId s = specRunSub (baseOf s) ∧
    (startsAlphaUnd s = false → baseOf s = 'N' :: s) := by
  have hbase : ∃ c cs, baseOf s = c :: cs ∧ isAlphaUndCh c = true := by
    rw [baseOf]
    by_cases hs : startsAlphaUnd s = true
    · rw [if_pos hs]
      cases s with
      | nil => cases hs
      | cons c cs => exact ⟨c, cs, rfl, hs⟩
    · rw [if_neg hs]
      exact ⟨'N', s, rfl, by decide⟩
  obtain ⟨c, cs, hb, hc⟩ := hbase
  have hid : isIdChar c = true := by
    rw [isIdChar, hc, Bool.or_true]
  have hcons : sanitizeId s = c :: subDisallowedAux false cs := by
    rw [sanitizeId, hb, subDisallowedAuxCons, if_pos hid]
  refine ⟨(by rw [hcons]; intro hx; cases hx), ?_, ?_, subDisallowedEqSpec _, ?_⟩
  · intro d hd
    rw [hcons, List.head?_cons] at hd
    cases hd
    exact hc
  · rw [sanitizeId]
    exact subDisallowedAuxAllOut _ _
  · intro hns
    rw [baseOf, if_neg (by rw [hns]; intro hx; cases hx)]

/-- Witness for C8 at the concrete identifier `1a b`, which exercises both
the `N`-prefix rule and the run replacement. -/
theorem sanitizeIdFormatWitness :
    baseOf ("1a b".data) = 'N' :: "1a b".data ∧
    sanitizeId ("1a b".data) = "N1a_b".data :=
  ⟨(sanitizeIdFormat ("1a b".data)).2.2.2.2 (by decide), by decide⟩

/-! Start-node resolver (claims C1 and C2). -/

theorem containsIffMem {α : Type} [BEq α] [LawfulBEq α] (l : List α) (a : α) :
    l.contains a = true ↔ a ∈ l := by
  constructor
  · intro h
    exact List.elem_iff.mp h
  · intro h
    exact List.elem_eq_true_of_mem h

theorem findFirstOfSplit {α : Type} (pred : α → Bool) :
    ∀ (l₁ : List α) (x : α) (l₂ : List α), pred x = true →
      (∀ q ∈ l₁, pred q = false) → (l₁ ++ x :: l₂).find? pred = some x := by
  intro l₁
  induction l₁ with
  | nil =>
    intro x l₂ hx _
    exact List.find?_cons_of_pos _ hx
  | cons a t ih =>
    intro x l₂ hx hq
    rw [List.cons_append,
        List.find?_cons_of_neg _ (by rw [hq a (List.mem_cons_self a t)]; intro h; cases h)]
    exact ih x l₂ hx (fun q hqt => hq q (List.mem_cons_of_mem a hqt))

/-- C1: the start-node resolver returns `none` exactly when the node set is
empty, and any returned identifier keys an existing node. -/
theorem findStartNodeSound (nodes : List (Str × NodeInfo))
    (conns : List (Str × Str × Str)) :
    (findStartNode nodes conns = none ↔ nodes = []) ∧
    (∀ i, findStartNode nodes conns = some i → i ∈ nodeKeys nodes) := by
  cases hf : (startCandidates nodes conns).find? isStartCandidate with
  | some p =>
    have hp : p ∈ nodes :=
      (List.mem_filter.mp (List.mem_of_find?_eq_some hf)).1
    have hr : findStartNode nodes conns = some p.1 := by
      simp only [findStartNode, hf]
    refine ⟨⟨?_, ?_⟩, ?_⟩
    · intro h
      rw [hr] at h
      cases h
    · intro h
      subst h
      cases hp
    · intro i hi
      rw [hr] at hi
      cases hi
      exact List.mem_map_of_mem Prod.fst hp
  | none =>
    cases hc : startCandidates nodes conns with
    | cons p rest =>
      have hps : p ∈ startCandidates nodes conns := by
        rw [hc]
        exact List.mem_cons_self p rest
      have hps' : p ∈ nodes.filter (fun q => !((targetIds conns).contains q.1)) := hps
      have hp : p ∈ nodes := (List.mem_filter.mp hps').1
      have hf' : List.find? isStartCandidate (p :: rest) = none := by
        rw [← hc]
        exact hf
      have hr : findStartNode nodes conns = some p.1 := by
        simp only [findStartNode, hc, hf']
      refine ⟨⟨?_, ?_⟩, ?_⟩
      · intro h
        rw [hr] at h
        cases h
      · intro h
        subst h
        cases hp
      · intro i hi
        rw [hr] at hi
        cases hi
        exact List.mem_map_of_mem Prod.fst hp
    | nil =>
      cases nodes with
      | cons q qs =>
        have hr : findStartNode (q :: qs) conns = some q.1 := by
          simp only [findStartNode, hf, hc, List.find?_nil]
        refine ⟨⟨?_, ?_⟩, ?_⟩
        · intro h
          rw [hr] at h
          cases h
        · intro h
          cases h
        · intro i hi
          rw [hr] at hi
          cases hi
          exact List.mem_map_of_mem Prod.fst (List.mem_cons_self q qs)
      | nil =>
        refine ⟨⟨fun _ => rfl, fun _ => rfl⟩, ?_⟩
        intro i hi
        cases hi

/-- Witness for C1 on a concrete singleton node set. -/
theorem findStartNodeSoundWitness :
    ("a".data : Str) ∈
      nodeKeys [("a".data, (⟨"process".data, "rectangle".data, "x".data⟩ : NodeInfo))] :=
  (findStartNodeSound
    [("a".data, ⟨"process".data, "rectangle".data, "x".data⟩)] []).2
    ("a".data) (by decide)

/-- C2, counterexample: with node `a` (role `process`, text `restart`) before
node `b` (role `start`), both without incoming edges, the resolver returns
`a` — the substring test fires on `restart` — although the unique node
carrying role `start` is `b`. -/
theorem findStartNodeIgnoresRoleCounterexample :
    findStartNode
      [("a".data, ⟨"process".data, "rectangle".data, "restart".data⟩),
       ("b".data, ⟨"start".data, "stadium".data, "Start".data⟩)] [] =
      some ("a".data) ∧
    ([("a".data, (⟨"process".data, "rectangle".data, "restart".data⟩ : NodeInfo)),
      ("b".data, ⟨"start".data, "stadium".data, "Start".data⟩)].filter
        (fun q => decide (q.2.typ = "start".data))).map Prod.fst = ["b".data] ∧
    ("a".data : Str) ≠ "b".data := by
  refine ⟨by decide, by decide, ?_⟩
  decide

/-- C2, amended: the resolver picks the earliest candidate (a node without
incoming edges, in insertion order) that either carries role `start` or
whose text case-insensitively contains the substring `start`; an earlier
text match can therefore win over a later role-`start` node. -/
theorem findStartNodePrefersFirstStartLike
    (nodes : List (Str × NodeInfo)) (conns : List (Str × Str × Str))
    (l₁ l₂ : List (Str × NodeInfo)) (p : Str × NodeInfo)
    (hsplit : startCandidates nodes conns = l₁ ++ p :: l₂)
    (hp : isStartCandidate p = true)
    (hl : ∀ q ∈ l₁, isStartCandidate q = false) :
    findStartNode nodes conns = some p.1 := by
  have hf : (startCandidates nodes conns).find? isStartCandidate = some p := by
    rw [hsplit]
    exact findFirstOfSplit isStartCandidate l₁ p l₂ hp hl
  simp only [findStartNode, hf]

/-- Witness for C2-amended: the role-`start` node `b` is chosen when the
candidate before it has no start-like signal. -/
theorem findStartNodePrefersFirstStartLikeWitness :
    findStartNode
      [("a".data, ⟨"process".data, "rectangle".data, "Intro".data⟩),
       ("b".data, ⟨"start".data, "stadium".data, "Start".data⟩)] [] =
      some ("b".data) :=
  findStartNodePrefersFirstStartLike
    [("a".data, ⟨"process".data, "rectangle".data, "Intro".data⟩),
     ("b".data, ⟨"start".data, "stadium".data, "Start".data⟩)] []
    [("a".data, ⟨"process".data, "rectangle".data, "Intro".data⟩)] []
    ("b".data, ⟨"start".data, "stadium".data, "Start".data⟩)
    (by decide) (by decide) (by decide)

/-! Edge soundness (claim C3). -/

/-- C3: an extracted connection is rendered as an edge exactly when both its
endpoints key nodes of the node set (so every rendered edge is sound, and a
connector with an unresolved endpoint yields no edge), and the node set
does not depend on the connector records at all. -/
theorem outputEdgesSound (items : List RawItem) (cs : List RawConnector)
    (e : Str × Str × Str) (he : e ∈ (extractNAC items cs).2) :
    (e ∈ keptConnections (extractNAC items cs).1 (extractNAC items cs).2 ↔
      e.1 ∈ nodeKeys (extractNAC items cs).1 ∧
      e.2.1 ∈ nodeKeys (extractNAC items cs).1) ∧
    (extractNAC items cs).1 = (extractNAC items []).1 := by
  refine ⟨?_, rfl⟩
  rw [keptConnections]
  constructor
  · intro h
    have h2 := (List.mem_filter.mp h).2
    rw [Bool.and_eq_true_iff] at h2
    exact ⟨(containsIffMem _ _).mp h2.1, (containsIffMem _ _).mp h2.2⟩
  · intro h
    refine List.mem_filter.mpr ⟨he, ?_⟩
    rw [Bool.and_eq_true_iff]
    exact ⟨(containsIffMem _ _).mpr h.1, (containsIffMem _ _).mpr h.2⟩

/-- Witness for C3: a connector to the unresolved identifier `zzz` is
extracted but produces no rendered edge. -/
theorem outputEdgesSoundWitness :
    (("A".data, "zzz".data, ([] : Str)) ∈
      (extractNAC [⟨"A".data, "shape".data, "Hello".data, "rectangle".data⟩]
        [⟨"A".data, "zzz".data, []⟩]).2) ∧
    ¬ (("A".data, "zzz".data, ([] : Str)) ∈
      keptConnections
        (extractNAC [⟨"A".data, "shape".data, "Hello".data, "rectangle".data⟩]
          [⟨"A".data, "zzz".data, []⟩]).1
        (extractNAC [⟨"A".data, "shape".data, "Hello".data, "rectangle".data⟩]
          [⟨"A".data, "zzz".data, []⟩]).2) :=
  ⟨by decide,
   fun hk =>
     absurd
       ((outputEdgesSound
         [⟨"A".data, "shape".data, "Hello".data, "rectangle".data⟩]
         [⟨"A".data, "zzz".data, []⟩]
         ("A".data, "zzz".data, []) (by decide)).1.mp hk).2
       (by decide)⟩

/-! Classifier (claims C6 and C10). -/

theorem keepNodeIff (i : Str) (info : NodeInfo) :
    keepNode i info = true ↔
      ((info.text ≠ [] ∧ info.text ≠ "shape".data) ∨
       (List.lookup i conclusionTextMap).isSome = true) := by
  rw [keepNode, Bool.or_eq_true_iff, Bool.and_eq_true_iff]
  simp only [decide_eq_true_iff]

/-- C6, counterexample: a rhombus shape with empty content is classified as
a `question`, but line 106 then drops it — no node at all is produced for
it, contradicting "including when that normalized content is the empty
string". -/
theorem emptyRhombusProducesNoNode :
    classifyItem ⟨"42".data, "shape".data, [], "rhombus".data⟩ =
      some ⟨"question".data, "diamond".data, []⟩ ∧
    extractNodes [⟨"42".data, "shape".data, [], "rhombus".data⟩] = [] := by
  refine ⟨by decide, ?_⟩
  decide

/-- C6, amended: a rhombus shape item with an identifier is classified with
role `question` and label the normalized content; the node is kept exactly
when that label is non-empty and different from the literal `shape`, or the
identifier is a key of the conclusion override table — an empty-content
rhombus outside that table produces no node. -/
theorem rhombusClassification (item : RawItem)
    (h1 : item.itemType = "shape".data) (h2 : item.shapeKind = "rhombus".data)
    (h3 : item.itemId ≠ []) :
    classifyItem item =
      some ⟨"question".data, "diamond".data, htmlToText item.content⟩ ∧
    extractNodes [item] =
      (if (htmlToText item.content ≠ [] ∧
           htmlToText item.content ≠ "shape".data) ∨
          (List.lookup item.itemId conclusionTextMap).isSome = true then
        [(item.itemId, ⟨"question".data, "diamond".data, htmlToText item.content⟩)]
      else []) := by
  have hcl : classifyItem item =
      some ⟨"question".data, "diamond".data, htmlToText item.content⟩ := by
    rw [classifyItem, if_pos h1, if_pos h2]
  refine ⟨hcl, ?_⟩
  show extractStep [] item = _
  rw [extractStep, if_neg h3]
  simp only [hcl]
  by_cases hp : (htmlToText item.content ≠ [] ∧
      htmlToText item.content ≠ "shape".data) ∨
      (List.lookup item.itemId conclusionTextMap).isSome = true
  · rw [if_pos ((keepNodeIff item.itemId _).mpr hp), if_pos hp]
    rfl
  · rw [if_neg (fun hk => hp ((keepNodeIff item.itemId _).mp hk)), if_neg hp]

/-- Witness for C6-amended on a concrete rhombus item with content. -/
theorem rhombusClassificationWitness :
    classifyItem ⟨"5".data, "shape".data, "Is X true?".data, "rhombus".data⟩ =
      some ⟨"question".data, "diamond".data, htmlToText ("Is X true?".data)⟩ ∧
    extractNodes [⟨"5".data, "shape".data, "Is X true?".data, "rhombus".data⟩] =
      (if (htmlToText ("Is X true?".data) ≠ [] ∧
           htmlToText ("Is X true?".data) ≠ "shape".data) ∨
          (List.lookup ("5".data) conclusionTextMap).isSome = true then
        [("5".data,
          (⟨"question".data, "diamond".data, htmlToText ("Is X true?".data)⟩ : NodeInfo))]
      else []) :=
  rhombusClassification ⟨"5".data, "shape".data, "Is X true?".data, "rhombus".data⟩
    rfl rfl (by decide)

/-- C10: an item whose classified label is empty or the literal `shape`,
with an identifier outside the conclusion override table, is dropped by the
keep-test of line 106 even though a classification rule matched it: the
node set is left unchanged. -/
theorem emptyOrShapeLabelExcluded (nodes : List (Str × NodeInfo))
    (item : RawItem) (info : NodeInfo)
    (hc : classifyItem item = some info)
    (hlab : info.text = [] ∨ info.text = "shape".data)
    (hmap : List.lookup item.itemId conclusionTextMap = none) :
    extractStep nodes item = nodes := by
  rw [extractStep]
  by_cases hid : item.itemId = []
  · rw [if_pos hid]
  · rw [if_neg hid]
    simp only [hc]
    have hk : keepNode item.itemId info = false := by
      rcases hlab with h | h
      · simp [keepNode, hmap, h]
      · simp [keepNode, hmap, h]
    rw [if_neg (by rw [hk]; intro hx; cases hx)]

/-- Witness for C10: a sticky note whose content is exactly `shape` matches
the sticky-note classification rule yet produces no node. -/
theorem emptyOrShapeLabelExcludedWitness :
    classifyItem ⟨"7".data, "sticky_note".data, "shape".data, "rectangle".data⟩ =
      some ⟨"note".data, "rectangle".data, "shape".data⟩ ∧
    extractStep [] ⟨"7".data, "sticky_note".data, "shape".data, "rectangle".data⟩ = [] :=
  ⟨by decide,
   emptyOrShapeLabelExcluded []
     ⟨"7".data, "sticky_note".data, "shape".data, "rectangle".data⟩
     ⟨"note".data, "rectangle".data, "shape".data⟩
     (by decide) (Or.inr rfl) (by decide)⟩

/-! Serializer (claims C7 and C9). -/

/-- C7, counterexample: on empty input the generator emits no document at
all — `generate_mermaid` prints a message and returns before writing
anything — rather than a header-only diagram (the start resolver does
yield null). -/
theorem emptyInputEmitsNothing :
    generateMermaidLines ⟨[], []⟩ = none ∧ findStartNode [] [] = none := by
  exact ⟨rfl, rfl⟩

/-- C7, amended: whenever the classified node set is empty the generator
returns early and produces no diagram document (not even a header), and
the start resolver returns null. -/
theorem emptyNodeSetReturnsEarly (data : MiroData)
    (h : extractNodes data.items = []) :
    generateMermaidLines data = none ∧
    findStartNode (extractNodes data.items)
      (extractConnections data.connectors) = none := by
  constructor
  · simp [generateMermaidLines, h]
  · rw [h]
    rfl

/-- Witness for C7-amended: a board holding only the excluded title text
item yields an empty node set and no document. -/
theorem emptyNodeSetReturnsEarlyWitness :
    generateMermaidLines
      ⟨[⟨"t1".data, "text".data, "Decision Tree Overview".data, "rectangle".data⟩],
       []⟩ = none ∧
    findStartNode
      (extractNodes
        [⟨"t1".data, "text".data, "Decision Tree Overview".data, "rectangle".data⟩])
      (extractConnections []) = none :=
  emptyNodeSetReturnsEarly
    ⟨[⟨"t1".data, "text".data, "Decision Tree Overview".data, "rectangle".data⟩], []⟩
    (by decide)

/-- C9: whenever the cleaned node label exceeds 50 characters the rendered
label has length exactly 50 and ends with the ellipsis marker, and
whenever the cleaned edge label exceeds 30 characters the rendered edge
label has length exactly 30 and ends with the ellipsis marker. -/
theorem labelTruncation (t l : Str) :
    (50 < (cleanNodeBase t).length →
      (nodeSafeText t).length = 50 ∧ ("...".data) <:+ nodeSafeText t) ∧
    (30 < (cleanEdgeBase l).length →
      (truncEdge (cleanEdgeBase l)).length = 30 ∧
        ("...".data) <:+ truncEdge (cleanEdgeBase l)) := by
  constructor
  · intro h
    rw [nodeSafeText, truncNode, if_pos h]
    constructor
    · rw [List.length_append, List.length_take]
      have h3 : ("...".data).length = 3 := rfl
      rw [h3]
      omega
    · exact ⟨(cleanNodeBase t).take 47, rfl⟩
  · intro h
    rw [truncEdge, if_pos h]
    constructor
    · rw [List.length_append, List.length_take]
      have h3 : ("...".data).length = 3 := rfl
      rw [h3]
      omega
    · exact ⟨(cleanEdgeBase l).take 27, rfl⟩

/-- Witness for C9 on concrete over-long labels. -/
theorem labelTruncationWitness :
    (50 < (cleanNodeBase (List.replicate 60 'a')).length ∧
      (nodeSafeText (List.replicate 60 'a')).length = 50 ∧
      ("...".data) <:+ nodeSafeText (List.replicate 60 'a')) ∧
    (30 < (cleanEdgeBase (List.replicate 40 'b')).length ∧
      (truncEdge (cleanEdgeBase (List.replicate 40 'b'))).length = 30 ∧
      ("...".data) <:+ truncEdge (cleanEdgeBase (List.replicate 40 'b'))) :=
  ⟨⟨by decide,
    (labelTruncation (List.replicate 60 'a') (List.replicate 40 'b')).1 (by decide)⟩,
   ⟨by decide,
    (labelTruncation (List.replicate 60 'a') (List.replicate 40 'b')).2 (by decide)⟩⟩

end DecisionTree
